import Mathlib

/-!
Verification of the live-handoff pipeline of `telegram_voice_relay.py`.

The embedding models, directly from the source:
- `AQueue` — the semantics of the standard `asyncio.Queue` as used at
  `live_queue = asyncio.Queue(maxsize=256)`: `put_nowait` raises `QueueFull`
  when full (modelled as `Option`), `get_nowait` pops the front, and `put`
  suspends while the queue is full (modelled by `putAwait` returning `none`
  for a put that has not completed within the trace);
- `requestStop` — the `request_stop` closure over `stop_event`, i.e. the
  one-shot stop latch together with the first logged reason;
- `offerFrame` / `forwardStream` — the body of the `_forward_stream`
  handler, including the `live_queue_warned` hysteresis and its two log
  lines;
- `pumpLoop` — the `pump_live` loop draining the queue into the stdin of
  the consumer process, with a pipe that may raise `BrokenPipeError` at a
  given write;
- `monitorLive` — the `monitor_live` task body run when `live_proc.wait()`
  returns;
- `shutdownRun` — the teardown sequence of `record_call` after
  `stop_event.wait()` returns (source lines 391-421), with the outcome of
  each awaited call supplied by a `ShutdownEnv`;
- `terminateProc` — the graceful-then-forced termination sequence
  (`terminate()`, `wait_for(wait(), timeout=5)`, `kill()`, `wait()`).

Audio chunks carry an opaque payload; theorems are stated for an arbitrary
payload type and witnesses instantiate it with `Nat`.
-/

set_option maxRecDepth 200000

namespace TelegramVoiceRelay

/-- Model of `asyncio.Queue(maxsize=m)`: a FIFO buffer of items with a
capacity bound. `items` lists the buffered elements front-first (`get` pops
the head, `put` appends at the back, matching `deque.popleft` and
`deque.append` in the library implementation). -/
structure AQueue (α : Type) where
  items : List α
  maxsize : Nat
deriving Repr, DecidableEq

/-- Model of `asyncio.Queue.full()`: false when `maxsize <= 0`, otherwise
`qsize() >= maxsize`. -/
def AQueue.full (q : AQueue α) : Bool :=
  if q.maxsize = 0 then false else decide (q.maxsize ≤ q.items.length)

/-- Model of `asyncio.Queue.put_nowait(x)`: raises `QueueFull` (modelled as
`none`) when the queue is full, otherwise appends `x`. -/
def AQueue.put_nowait (q : AQueue α) (x : α) : Option (AQueue α) :=
  if q.full then none else some { q with items := q.items ++ [x] }

/-- Model of `asyncio.Queue.get_nowait()`: `none` on an empty queue,
otherwise the front item together with the remaining queue. -/
def AQueue.get_nowait (q : AQueue α) : Option (α × AQueue α) :=
  match q.items with
  | [] => none
  | x :: rest => some (x, { q with items := rest })

/-- One step of `await queue.put(x)`: the put completes immediately
(appending `x`) when the queue is not full; on a full queue the caller
suspends, modelled as `none` — the put has not completed within the trace
and cannot complete until a `get` frees a slot. -/
def AQueue.putAwait (q : AQueue α) (x : α) : Option (AQueue α) :=
  if q.full then none else some { q with items := q.items ++ [x] }

/-- The condition under which `await queue.put(x)` suspends: exactly when
the queue is full. -/
def AQueue.putBlocks (q : AQueue α) : Bool := q.full

/-- The producer-side offer in `_forward_stream`
(`try: live_queue.put_nowait(frame.frame) except asyncio.QueueFull: ...`):
returns the queue after the call together with the `accepted` outcome —
`true` when the chunk was enqueued, `false` when `QueueFull` dropped it. -/
def offer (q : AQueue α) (x : α) : AQueue α × Bool :=
  match q.put_nowait x with
  | none => (q, false)
  | some q' => (q', true)

/-- A sequence of offers with no intervening take: the final queue and the
list of per-offer `accepted` flags, in call order. -/
def offerAll (q : AQueue α) : List α → AQueue α × List Bool
  | [] => (q, [])
  | c :: cs =>
    let r := offer q c
    let r' := offerAll r.1 cs
    (r'.1, r.2 :: r'.2)

/-- The one-shot stop latch: `stop_event` together with the reason of the
first effective `request_stop` call (observable as its single
`logging.info` line). -/
structure Stop where
  fired : Bool
  reason : Option String
deriving Repr, DecidableEq

/-- Model of the `request_stop(reason)` closure:
`if not stop_event.is_set(): logging.info(reason); stop_event.set()`. -/
def requestStop (s : Stop) (r : String) : Stop :=
  if s.fired then s else { fired := true, reason := some r }

/-- A sequence of `request_stop` calls from any interleaving of triggers,
in the order the single event loop runs them. -/
def fireAll (s : Stop) (rs : List String) : Stop := rs.foldl requestStop s

/-- Log lines emitted by `_forward_stream`: the overload warning
("Dropping audio frame: live consumer is too slow (queue size=%d).") and
the recovery notice ("Live handoff consumer caught up; queue depth %d."). -/
inductive FwdLog where
  | dropWarning (maxsize : Nat)
  | caughtUp (depth : Nat)
deriving Repr, DecidableEq

/-- Whether a log line is the overload warning. -/
def FwdLog.isWarn : FwdLog → Bool
  | .dropWarning _ => true
  | .caughtUp _ => false

/-- Whether a log line is the recovery notice. -/
def FwdLog.isRecover : FwdLog → Bool
  | .dropWarning _ => false
  | .caughtUp _ => true

/-- Number of overload warnings in a log. -/
def countWarn (l : List FwdLog) : Nat := (l.filter FwdLog.isWarn).length

/-- Number of recovery notices in a log. -/
def countRecover (l : List FwdLog) : Nat := (l.filter FwdLog.isRecover).length

/-- State shared by the producer callback and the pump: the live queue and
the `live_queue_warned` hysteresis flag. -/
structure FwdState (α : Type) where
  queue : AQueue (Option α)
  warned : Bool
deriving Repr, DecidableEq

/-- The per-frame offer body of `_forward_stream` (source lines 339-357):
`put_nowait` under `try`; on `QueueFull`, warn once and set
`live_queue_warned`; on success, if warned and the post-put depth is below
`maxsize // 2`, log recovery and clear the flag. -/
def offerFrame (st : FwdState α) (c : α) : FwdState α × List FwdLog :=
  match st.queue.put_nowait (some c) with
  | none =>
    if st.warned then (st, [])
    else ({ st with warned := true }, [.dropWarning st.queue.maxsize])
  | some q' =>
    if st.warned && decide (q'.items.length < q'.maxsize / 2) then
      ({ queue := q', warned := false }, [.caughtUp q'.items.length])
    else
      ({ st with queue := q' }, [])

/-- One completed `await live_queue.get()` by the pump, as it affects the
shared state: pops the front item; a get suspended on an empty queue has no
effect within the trace. The pump performs no logging here. -/
def takeFrame (st : FwdState α) : FwdState α :=
  match st.queue.get_nowait with
  | none => st
  | some (_, q') => { st with queue := q' }

/-- Interleaved operations on the shared queue state: a producer offer of
one frame, or one completed take by the pump. -/
inductive FwdOp (α : Type) where
  | offer (c : α)
  | take

/-- Run of an interleaving of offers and takes, accumulating the log. -/
def runFwd (st : FwdState α) : List (FwdOp α) → FwdState α × List FwdLog
  | [] => (st, [])
  | .offer c :: ops =>
    let r := offerFrame st c
    let r' := runFwd r.1 ops
    (r'.1, r.2 ++ r'.2)
  | .take :: ops => runFwd (takeFrame st) ops

/-- Initial live-handoff state: `asyncio.Queue(maxsize=256)` and
`live_queue_warned = False`. -/
def initFwd : FwdState α := ⟨⟨[], 256⟩, false⟩

/-- Consumer-process references as seen by `_forward_stream`: whether
`live_proc` is set, whether its `stdin` is set, and `stdin.is_closing()`. -/
structure ProcHandle where
  present : Bool
  stdinPresent : Bool
  stdinClosing : Bool
deriving Repr, DecidableEq

/-- The `for frame in update.frames` loop of `_forward_stream` (source
lines 332-357): before each frame the handler returns outright when
`live_proc is None or live_proc.stdin is None or live_proc.stdin.is_closing()`,
discarding the remaining frames of the batch. -/
def forwardFrames (proc : ProcHandle) : List α → FwdState α → FwdState α × List FwdLog
  | [], st => (st, [])
  | f :: fs, st =>
    if !proc.present || !proc.stdinPresent || proc.stdinClosing then (st, [])
    else
      let r := offerFrame st f
      let r' := forwardFrames proc fs r.1
      (r'.1, r.2 ++ r'.2)

/-- The `_forward_stream` handler body: the top guard
`if not live_active or live_queue is None: return` followed by the frame
loop. -/
def forwardStream (liveActive : Bool) (queuePresent : Bool) (proc : ProcHandle)
    (frames : List α) (st : FwdState α) : FwdState α × List FwdLog :=
  if !liveActive || !queuePresent then (st, [])
  else forwardFrames proc frames st

/-- The stop reason the pump fires on a broken pipe (source line 297). -/
def pipeClosedReason : String := "Live command input closed unexpectedly; stopping..."

/-- Exit causes of the `pump_live` loop: the end marker (`chunk is None`),
the stdin guard (`not live_proc or stdin is None or stdin.is_closing()`),
a `BrokenPipeError` or `ConnectionResetError` during the write, or the
trace ending with the pump suspended on `get()`. -/
inductive PumpExit where
  | endMarker
  | stdinGone
  | pipeBroken
  | starved
deriving Repr, DecidableEq

/-- The `pump_live` loop, processing the successive results of
`await live_queue.get()` (first argument). `stdinOk` is the per-iteration
guard `live_proc and live_proc.stdin and not live_proc.stdin.is_closing()`;
it is constant while the pump runs, because the pump itself is the only
task that closes the stream. `failAt = some k` makes the write of the
`k`-th chunk (counting from 0) raise `BrokenPipeError`, upon which the
pump calls `request_stop` and breaks. Returns the chunks written in
order, the final stop latch, and the exit cause. -/
def pumpLoop : List (Option α) → Bool → Option Nat → Stop → List α × Stop × PumpExit
  | [], _, _, s => ([], s, .starved)
  | none :: _, _, _, s => ([], s, .endMarker)
  | some _ :: _, false, _, s => ([], s, .stdinGone)
  | some _ :: _, true, some 0, s => ([], requestStop s pipeClosedReason, .pipeBroken)
  | some c :: rest, true, some (k + 1), s =>
    let r := pumpLoop rest true (some k) s
    (c :: r.1, r.2)
  | some c :: rest, true, none, s =>
    let r := pumpLoop rest true none s
    (c :: r.1, r.2)

/-- Chunks among a list of queue items (`None` entries are the end
markers). -/
def chunksOf (l : List (Option α)) : List α := l.filterMap id

/-- Ghost-instrumented state of the whole live run: the queue together
with the history of accepted chunks, of all enqueued items, and of take
results. -/
structure LiveRun (α : Type) where
  queue : AQueue (Option α)
  accepted : List α
  enqueued : List (Option α)
  taken : List (Option α)

/-- Events on the live queue: a producer `put_nowait` of one frame, the
end-marker `await put(None)` (from `monitor_live` or the shutdown path),
or one completed `await get()` by the pump. An awaited put or get that
stays suspended within the trace contributes nothing. -/
inductive LiveOp (α : Type) where
  | offer (c : α)
  | putEndMarker
  | take

/-- One event of the live run, with ghost histories updated. -/
def stepLive (st : LiveRun α) : LiveOp α → LiveRun α
  | .offer c =>
    match st.queue.put_nowait (some c) with
    | none => st
    | some q' =>
      { st with queue := q', accepted := st.accepted ++ [c],
                enqueued := st.enqueued ++ [some c] }
  | .putEndMarker =>
    match st.queue.putAwait none with
    | none => st
    | some q' => { st with queue := q', enqueued := st.enqueued ++ [none] }
  | .take =>
    match st.queue.get_nowait with
    | none => st
    | some (x, q') => { st with queue := q', taken := st.taken ++ [x] }

/-- Run of a sequence of live-queue events. -/
def runLive (st : LiveRun α) : List (LiveOp α) → LiveRun α
  | [] => st
  | op :: ops => runLive (stepLive st op) ops

/-- Initial live run: empty `asyncio.Queue(maxsize=256)`, empty
histories. -/
def initLive : LiveRun α := ⟨⟨[], 256⟩, [], [], []⟩

/-- The stop reason `monitor_live` fires (source line 314), with the
return code of the consumer process interpolated. -/
def monitorReason (returncode : Int) : String :=
  "Live command exited with return code " ++ toString returncode ++ "; stopping..."

/-- State read and written by `monitor_live`: the `live_active` flag, the
stop latch, and the live queue. -/
structure MonitorCtx (α : Type) where
  liveActive : Bool
  stop : Stop
  queue : AQueue (Option α)
deriving Repr, DecidableEq

/-- The `monitor_live` body after `await live_proc.wait()` returns
`returncode` (source lines 309-317), on the live path where
`live_queue is not None`: fire the stop latch when
`live_active and not stop_event.is_set()`, then `await live_queue.put(None)`
when `live_active`. A put suspended on a full queue is modelled as
`none`. -/
def monitorLive (ctx : MonitorCtx α) (returncode : Int) : Option (MonitorCtx α) :=
  let stop' := if ctx.liveActive && !ctx.stop.fired
               then requestStop ctx.stop (monitorReason returncode)
               else ctx.stop
  if ctx.liveActive then
    match ctx.queue.putAwait none with
    | none => none
    | some q' => some ⟨ctx.liveActive, stop', q'⟩
  else
    some ⟨ctx.liveActive, stop', ctx.queue⟩

/-- Exceptions arising during teardown, classified by their place in the
hierarchy: `cancelled` (asyncio.CancelledError) derives from BaseException
rather than Exception since Python 3.8, so `contextlib.suppress(Exception)`
does not catch it. -/
inductive Exc where
  | notInCall
  | cancelled
  | timedOut
  | other (tag : Nat)
deriving Repr, DecidableEq

/-- Whether an exception is caught by `contextlib.suppress(Exception)`. -/
def Exc.isException : Exc → Bool
  | .cancelled => false
  | _ => true

/-- Outcome of each awaited or called operation in the teardown sequence of
`record_call` (source lines 391-421), on the live path where `live_queue`,
`live_task`, `live_monitor` and `live_proc` are all set. -/
structure ShutdownEnv where
  leaveExc : Option Exc
  queueFull : Bool
  pumpExc : Option Exc
  monitorExc : Option Exc
  stdinOpen : Bool
  closeExc : Option Exc
  procRunning : Bool
  termExc : Option Exc
  gracefulTimesOut : Bool
  killExc : Option Exc
  finalWaitExc : Option Exc
  sleepExc : Option Exc
deriving Repr, DecidableEq

/-- Teardown actions, in program order. -/
inductive SStep where
  | markedInactive
  | leftCall
  | pushedEnd
  | awaitedPump
  | cancelledMonitor
  | closedStdin
  | terminated
  | killed
  | flushed
deriving Repr, DecidableEq

/-- Overall outcome of the teardown: ran to completion, propagated an
exception to the caller of `record_call`, or suspended forever on the
queue. Each carries the actions performed up to that point. -/
inductive SOutcome where
  | completed (steps : List SStep)
  | raised (e : Exc) (steps : List SStep)
  | blockedOnQueue (steps : List SStep)
deriving Repr, DecidableEq

/-- Step 7: `await asyncio.sleep(0.5)` (no suppression). -/
def shutdownFlush (env : ShutdownEnv) (steps : List SStep) : SOutcome :=
  match env.sleepExc with
  | some e => .raised e steps
  | none => .completed (steps ++ [.flushed])

/-- After the forced kill: `await live_proc.wait()` (no suppression). -/
def shutdownWait2 (env : ShutdownEnv) (steps : List SStep) : SOutcome :=
  match env.finalWaitExc with
  | some e => .raised e steps
  | none => shutdownFlush env steps

/-- The graceful wait: `await asyncio.wait_for(live_proc.wait(), timeout=5)`;
on `asyncio.TimeoutError`, `live_proc.kill()` under
`contextlib.suppress(Exception)`, then the unconditional wait. -/
def shutdownWait (env : ShutdownEnv) (steps : List SStep) : SOutcome :=
  if env.gracefulTimesOut then
    match env.killExc with
    | some e =>
      if e.isException then shutdownWait2 env (steps ++ [.killed])
      else .raised e steps
    | none => shutdownWait2 env (steps ++ [.killed])
  else shutdownFlush env steps

/-- Process teardown when still running: `live_proc.terminate()` under
`contextlib.suppress(Exception)`, then the graceful wait. Skipped entirely
when `live_proc.returncode is not None`. -/
def shutdownProc2 (env : ShutdownEnv) (steps : List SStep) : SOutcome :=
  if env.procRunning then
    match env.termExc with
    | some e =>
      if e.isException then shutdownWait env (steps ++ [.terminated])
      else .raised e steps
    | none => shutdownWait env (steps ++ [.terminated])
  else shutdownFlush env steps

/-- Stdin teardown: when `live_proc.stdin and not live_proc.stdin.is_closing()`,
`live_proc.stdin.close()` under `contextlib.suppress(Exception)`. -/
def shutdownProc (env : ShutdownEnv) (steps : List SStep) : SOutcome :=
  match (if env.stdinOpen then env.closeExc else none) with
  | some e =>
    if e.isException then shutdownProc2 env (steps ++ [.closedStdin])
    else .raised e steps
  | none =>
    shutdownProc2 env (if env.stdinOpen then steps ++ [.closedStdin] else steps)

/-- Monitor teardown: `live_monitor.cancel()` followed by
`await live_monitor` under `contextlib.suppress(asyncio.CancelledError)` —
only the cancellation is suppressed. -/
def shutdownMonitor (env : ShutdownEnv) (steps : List SStep) : SOutcome :=
  match env.monitorExc with
  | some Exc.cancelled => shutdownProc env (steps ++ [.cancelledMonitor])
  | some e => .raised e steps
  | none => shutdownProc env (steps ++ [.cancelledMonitor])

/-- Pump teardown: `await live_task` under
`contextlib.suppress(Exception)`. -/
def shutdownPump (env : ShutdownEnv) (steps : List SStep) : SOutcome :=
  match env.pumpExc with
  | some e =>
    if e.isException then shutdownMonitor env (steps ++ [.awaitedPump])
    else .raised e steps
  | none => shutdownMonitor env (steps ++ [.awaitedPump])

/-- End-marker push: `await live_queue.put(None)` with no suppression and
no timeout; on a full queue the coroutine suspends until a take frees a
slot, which never happens once the pump has exited. -/
def shutdownQueue (env : ShutdownEnv) (steps : List SStep) : SOutcome :=
  if env.queueFull then .blockedOnQueue steps
  else shutdownPump env (steps ++ [.pushedEnd])

/-- The whole teardown sequence of `record_call` after `stop_event.wait()`
returns: `live_active = False`, then
`with contextlib.suppress(NotInCallError): await call.leave_call(...)` —
only `NotInCallError` is suppressed there — then the queue, pump, monitor
and process steps, then the flush sleep. -/
def shutdownRun (env : ShutdownEnv) : SOutcome :=
  let steps1 := [SStep.markedInactive]
  match env.leaveExc with
  | some e =>
    if e = Exc.notInCall then shutdownQueue env (steps1 ++ [.leftCall])
    else .raised e steps1
  | none => shutdownQueue env (steps1 ++ [.leftCall])

/-- Behaviour of the consumer process under termination: `gracefulExit`
gives the time after `terminate()` at which the process exits on its own
(`none` when it ignores the request); `killDelay` is the small bounded
time between `kill()` and the exit that the final `wait()` observes;
`exitCode` is the status that `wait()` returns. -/
structure ProcBehaviour where
  gracefulExit : Option Nat
  killDelay : Nat
  exitCode : Int

/-- Signals sent during termination. -/
inductive TermEvent where
  | termRequested
  | killRequested
deriving Repr, DecidableEq

/-- Result of the termination sequence: the signals sent, the exit status
the final wait returned, and the time elapsed since `terminate()` was
sent. -/
structure TermResult where
  events : List TermEvent
  status : Option Int
  elapsed : Nat
deriving Repr, DecidableEq

/-- The termination sequence of `record_call` (source lines 410-418):
`live_proc.terminate()`, then `await asyncio.wait_for(live_proc.wait(),
timeout=5)` with the timeout given by `grace`; if that times out,
`live_proc.kill()` and an unconditional `await live_proc.wait()`. -/
def terminateProc (p : ProcBehaviour) (grace : Nat) : TermResult :=
  match p.gracefulExit with
  | some t =>
    if t ≤ grace then ⟨[.termRequested], some p.exitCode, t⟩
    else ⟨[.termRequested, .killRequested], some p.exitCode, grace + p.killDelay⟩
  | none => ⟨[.termRequested, .killRequested], some p.exitCode, grace + p.killDelay⟩

/-- A queue already holding 256 chunks, used as concrete input. -/
def fullQ : AQueue (Option Nat) := ⟨List.replicate 256 (some 0), 256⟩

/-- A burst of 257 offered frames: enough to fill the 256-slot queue and
drop one frame. -/
def offerBurst : List (FwdOp Nat) := (List.range 257).map FwdOp.offer

/-- Concrete event sequence for the hysteresis counterexample: 257 offers
(filling the queue and dropping one frame), then 130 takes (bringing the
depth to 126, strictly below half capacity). -/
def hystRun1 : List (FwdOp Nat) := offerBurst ++ List.replicate 130 FwdOp.take

/-- Concrete event sequence for the amended hysteresis claim: fill and
overflow (one warning), drain well below half capacity, then refill and
overflow again (one recovery, then a second warning). -/
def hystRun2 : List (FwdOp Nat) :=
  offerBurst ++ List.replicate 200 FwdOp.take ++ offerBurst

/-- Concrete teardown outcome for the shutdown counterexample: leaving the
call raises an exception other than `NotInCallError` (for example an RPC
error) while the consumer process is still running. -/
def shutdownEnvCex : ShutdownEnv :=
  ⟨some (Exc.other 0), false, none, some Exc.cancelled, true, none,
   true, none, false, none, none, none⟩

/-- Concrete teardown environment on the anticipated-exception path:
leaving the call raises `NotInCallError` (suppressed), awaiting the pump
raises an ordinary exception (suppressed), the cancelled monitor raises
`CancelledError` (suppressed), the process ignores the graceful wait and
is force-killed. -/
def shutdownEnvOk : ShutdownEnv :=
  ⟨some Exc.notInCall, false, some (Exc.other 3), some Exc.cancelled, true, none,
   true, none, true, none, none, none⟩

theorem full_eq_false (q : AQueue α) (h : q.items.length < q.maxsize) :
    q.full = false := by
  simp only [AQueue.full]
  rw [if_neg (by omega)]
  simpa using by omega

theorem full_eq_true (q : AQueue α) (h0 : 0 < q.maxsize)
    (h : q.maxsize ≤ q.items.length) :
    q.full = true := by
  simp only [AQueue.full]
  rw [if_neg (by omega)]
  simpa using h

theorem offer_not_full (q : AQueue α) (x : α)
    (h : q.items.length < q.maxsize) :
    offer q x = ({ q with items := q.items ++ [x] }, true) := by
  simp [offer, AQueue.put_nowait, full_eq_false q h]

theorem offer_full (q : AQueue α) (x : α) (h0 : 0 < q.maxsize)
    (h : q.maxsize ≤ q.items.length) :
    offer q x = (q, false) := by
  simp [offer, AQueue.put_nowait, full_eq_true q h0 h]

theorem offerAll_spec (M : Nat) (hM : 0 < M) :
    ∀ (cs pre : List α), pre.length ≤ M →
    offerAll ⟨pre, M⟩ cs =
      (⟨pre ++ cs.take (M - pre.length), M⟩,
       List.replicate (min cs.length (M - pre.length)) true ++
       List.replicate (cs.length - (M - pre.length)) false) := by
  intro cs
  induction cs with
  | nil => intro pre h; simp [offerAll]
  | cons c cs ih =>
    intro pre h
    rcases Nat.lt_or_ge pre.length M with hlt | hge
    · have hstep := offer_not_full (α := α) ⟨pre, M⟩ c hlt
      have hroom : M - pre.length = (M - (pre.length + 1)) + 1 := by omega
      simp only [offerAll, hstep]
      rw [ih (pre ++ [c]) (by simp; omega)]
      simp only [Prod.mk.injEq]
      constructor
      · simp only [AQueue.mk.injEq, List.append_assoc, and_true]
        rw [hroom, List.take_succ_cons]
        simp
      · simp only [List.length_cons, List.length_append, List.length_singleton]
        rw [hroom]
        rw [Nat.succ_min_succ]
        simp [List.replicate_succ]
    · have heq : pre.length = M := le_antisymm h hge
      have hstep := offer_full (α := α) ⟨pre, M⟩ c hM (by simpa using hge)
      simp only [offerAll, hstep]
      rw [ih pre h]
      simp [heq, List.replicate_succ]

theorem get_nowait_shape (q : AQueue α) (y : α) (q2 : AQueue α)
    (h : q.get_nowait = some (y, q2)) :
    q.items = y :: q2.items ∧ q2.maxsize = q.maxsize := by
  unfold AQueue.get_nowait at h
  match hq : q.items with
  | [] => rw [hq] at h; exact absurd h (by simp)
  | x :: rest =>
    rw [hq] at h
    simp only [Option.some.injEq, Prod.mk.injEq] at h
    obtain ⟨hy, hq2⟩ := h
    subst hy
    subst hq2
    exact ⟨rfl, rfl⟩

/-- C1: for every sequence of offers to the live queue (capacity 256) with
no intervening take, exactly the first 256 offers are accepted and
enqueued in order; every later offer leaves the queue unchanged and
reports `accepted = false` (`put_nowait` never suspends, so the producer
is never blocked); and after one take from a full queue the next offer is
accepted again. The enqueued contents are exactly the first 256 offered
chunks, in offer order: nothing is reordered or duplicated. -/
theorem frameQueue_offer_drop_policy (cs : List α) (q : AQueue α)
    (hcap : q.maxsize = 256) (hfull : q.items.length = 256) (c : α) :
    (offerAll ⟨[], 256⟩ cs).2 =
      List.replicate (min cs.length 256) true ++
      List.replicate (cs.length - 256) false
    ∧ (offerAll ⟨[], 256⟩ cs).1.items = cs.take 256
    ∧ offer q c = (q, false)
    ∧ (∀ y q2, q.get_nowait = some (y, q2) →
        (offer q2 c).2 = true ∧ (offer q2 c).1.items = q2.items ++ [c]) := by
  have hspec := offerAll_spec 256 (by omega) cs ([] : List α) (by simp)
  refine ⟨?_, ?_, ?_, ?_⟩
  · rw [hspec]; simp
  · rw [hspec]; simp
  · exact offer_full q c (by omega) (by omega)
  · intro y q2 hget
    obtain ⟨hitems, hmax⟩ := get_nowait_shape q y q2 hget
    have hlen : q2.items.length < q2.maxsize := by
      have : q.items.length = q2.items.length + 1 := by rw [hitems]; simp
      omega
    rw [offer_not_full q2 c hlen]
    exact ⟨rfl, rfl⟩

/-- Witness for C1 at concrete inputs: three offers into the empty queue
are all accepted in order, and an offer to a queue already holding 256
chunks is dropped with the queue unchanged. -/
theorem frameQueue_offer_drop_policy_witness :
    ((List.replicate 256 (0 : Nat)).length = 256
      ∧ (offerAll (⟨[], 256⟩ : AQueue Nat) [1, 2, 3]).2 =
          List.replicate (min 3 256) true ++ List.replicate (3 - 256) false)
    ∧ (offerAll (⟨[], 256⟩ : AQueue Nat) [1, 2, 3]).1.items = [1, 2, 3].take 256
    ∧ offer (⟨List.replicate 256 0, 256⟩ : AQueue Nat) 7 =
        (⟨List.replicate 256 0, 256⟩, false) := by
  have h := frameQueue_offer_drop_policy [1, 2, 3]
    (⟨List.replicate 256 0, 256⟩ : AQueue Nat) rfl (by rw [List.length_replicate]) 7
  exact ⟨⟨by rw [List.length_replicate], h.1⟩, h.2.1, h.2.2.1⟩

theorem requestStop_fired (s : Stop) (r : String) (h : s.fired = true) :
    requestStop s r = s := by
  simp [requestStop, h]

theorem fireAll_fired (rs : List String) (s : Stop) (h : s.fired = true) :
    fireAll s rs = s := by
  induction rs with
  | nil => rfl
  | cons r rs ih =>
    show fireAll (requestStop s r) rs = s
    rw [requestStop_fired s r h]
    exact ih

/-- C4: for every interleaving of `request_stop` calls — modelled as the
sequence of reasons in the order the single event loop runs the triggering
tasks — the latch is set exactly once, the recorded reason is the first
one fired, and any call on an already-fired latch changes nothing. -/
theorem stopController_first_reason_wins (r : String) (rs : List String)
    (s : Stop) (h : s.fired = true) (r' : String) :
    (fireAll ⟨false, none⟩ (r :: rs)).fired = true
    ∧ (fireAll ⟨false, none⟩ (r :: rs)).reason = some r
    ∧ requestStop s r' = s := by
  have h1 : requestStop ⟨false, none⟩ r = ⟨true, some r⟩ := by
    simp [requestStop]
  have h2 : fireAll (⟨false, none⟩ : Stop) (r :: rs) = ⟨true, some r⟩ := by
    show fireAll (requestStop ⟨false, none⟩ r) rs = _
    rw [h1, fireAll_fired rs ⟨true, some r⟩ rfl]
  exact ⟨by rw [h2], by rw [h2], requestStop_fired s r' h⟩

/-- Witness for C4 at concrete inputs: racing the signal trigger against
the call-end trigger records only the first reason, and a third fire on
the latched state is a no-op. -/
theorem stopController_first_reason_wins_witness :
    (fireAll ⟨false, none⟩
        ["Received SIGINT; stopping...", "Voice chat ended (status=left)."]).fired = true
    ∧ (fireAll ⟨false, none⟩
        ["Received SIGINT; stopping...", "Voice chat ended (status=left)."]).reason =
        some "Received SIGINT; stopping..."
    ∧ requestStop ⟨true, some "Received SIGINT; stopping..."⟩ "Requested duration elapsed" =
        ⟨true, some "Received SIGINT; stopping..."⟩ :=
  stopController_first_reason_wins "Received SIGINT; stopping..."
    ["Voice chat ended (status=left)."]
    ⟨true, some "Received SIGINT; stopping..."⟩ rfl "Requested duration elapsed"

/-- C2 counterexample: on a queue already holding 256 chunks,
`await live_queue.put(None)` does not return to the caller — it suspends
(the put completes only after a take frees a slot), contrary to the claim
that the end-marker push succeeds and returns without blocking in every
queue state. With the pump already exited, no take ever happens and the
push is suspended forever. -/
theorem putEnd_blocks_on_full_queue :
    fullQ.putBlocks = true ∧ fullQ.putAwait none = none := by
  constructor
  · rfl
  · rfl

/-- C2 amended: the end-marker push returns without suspension exactly
when the queue is below capacity; at capacity it suspends, and it can
resume only after a take frees a slot (so it completes while the pump is
still draining, but is suspended forever once the pump has exited). -/
theorem putEnd_amended (q : AQueue (Option α)) (h0 : 0 < q.maxsize) :
    (q.items.length < q.maxsize →
      q.putBlocks = false
      ∧ q.putAwait none = some ⟨q.items ++ [none], q.maxsize⟩)
    ∧ (q.items.length = q.maxsize →
      q.putBlocks = true
      ∧ q.putAwait none = none
      ∧ ∀ y q2, q.get_nowait = some (y, q2) →
          q2.putAwait none = some ⟨q2.items ++ [none], q.maxsize⟩) := by
  constructor
  · intro hlt
    have hf := full_eq_false q hlt
    exact ⟨hf, by simp [AQueue.putAwait, hf]⟩
  · intro heq
    have hf := full_eq_true q h0 (by omega)
    refine ⟨hf, by simp [AQueue.putAwait, hf], ?_⟩
    intro y q2 hget
    obtain ⟨hitems, hmax⟩ := get_nowait_shape q y q2 hget
    have hlen : q2.items.length < q2.maxsize := by
      have : q.items.length = q2.items.length + 1 := by rw [hitems]; simp
      omega
    have hf2 := full_eq_false q2 hlen
    simp [AQueue.putAwait, hf2, hmax]

/-- Witness for C2 at concrete inputs: the push completes immediately on a
queue holding 10 of 256 slots, and after one take from a full queue the
suspended push can complete. -/
theorem putEnd_amended_witness :
    ((⟨List.replicate 10 (some 0), 256⟩ : AQueue (Option Nat)).putBlocks = false
      ∧ (⟨List.replicate 10 (some 0), 256⟩ : AQueue (Option Nat)).putAwait none =
          some ⟨List.replicate 10 (some 0) ++ [none], 256⟩)
    ∧ (⟨List.replicate 255 (some 0), 256⟩ : AQueue (Option Nat)).putAwait none =
        some ⟨List.replicate 255 (some 0) ++ [none], 256⟩ := by
  have h1 := (putEnd_amended (⟨List.replicate 10 (some 0), 256⟩ : AQueue (Option Nat))
    (by decide)).1 (by decide)
  have h2 := ((putEnd_amended (α := Nat) fullQ (by decide)).2
    (by decide)).2.2 (some 0)
    ⟨List.replicate 255 (some 0), 256⟩ (by decide)
  exact ⟨h1, h2⟩

/-- C10: when the consumer process handle is absent, its stdin is absent,
or its stdin is closing, the `_forward_stream` handler returns without
enqueueing any frame of the batch, without touching the
`live_queue_warned` flag, and without logging — even while
`live_active` is still true and the queue exists, i.e. before any stop
trigger fires. The guard is tested before each frame, so the whole batch
is discarded outside the drop-accounting path. -/
theorem forward_discards_without_consumer (proc : ProcHandle)
    (h : proc.present = false ∨ proc.stdinPresent = false ∨ proc.stdinClosing = true)
    (frames : List α) (st : FwdState α) :
    forwardStream true true proc frames st = (st, []) := by
  cases frames with
  | nil => simp [forwardStream, forwardFrames]
  | cons f fs =>
    have hguard : (!proc.present || !proc.stdinPresent || proc.stdinClosing) = true := by
      rcases h with h | h | h <;> simp [h]
    simp [forwardStream, forwardFrames, hguard]

/-- Witness for C10 at concrete inputs: with stdin reported as closing, a
two-frame batch leaves the warned flag and queue untouched and logs
nothing. -/
theorem forward_discards_without_consumer_witness :
    forwardStream true true ⟨true, true, true⟩ [1, 2] (initFwd (α := Nat)) =
      (initFwd, []) :=
  forward_discards_without_consumer ⟨true, true, true⟩
    (Or.inr (Or.inr rfl)) [1, 2] initFwd

theorem pumpLoop_prefix_writes (pre : List α) (c : α) (rest : List (Option α))
    (s : Stop) :
    pumpLoop (pre.map some ++ some c :: rest) true (some pre.length) s =
      (pre, requestStop s pipeClosedReason, .pipeBroken) := by
  induction pre with
  | nil => rfl
  | cons x xs ih =>
    show (x :: (pumpLoop (xs.map some ++ some c :: rest) true (some xs.length) s).1,
          (pumpLoop (xs.map some ++ some c :: rest) true (some xs.length) s).2) = _
    rw [ih]

/-- C6: when the write of a chunk raises a broken-pipe condition, the pump
fires the stop latch with the reason containing "closed unexpectedly" (the
exact string of source line 297), breaks out of its loop into the terminal
state with exit cause `pipeBroken`, writes nothing further (its output is
exactly the chunks before the failed one — the failed chunk is neither
written nor re-enqueued, and no item of the remaining queue is touched). -/
theorem pump_broken_pipe_stops (pre : List α) (c : α) (rest : List (Option α))
    (s : Stop) (h : s.fired = false) :
    pumpLoop (pre.map some ++ some c :: rest) true (some pre.length) s =
      (pre, ⟨true, some pipeClosedReason⟩, .pipeBroken)
    ∧ "closed unexpectedly".data <:+: pipeClosedReason.data := by
  constructor
  · rw [pumpLoop_prefix_writes pre c rest s]
    simp [requestStop, h]
  · decide

/-- Witness for C6 at concrete inputs: with two chunks written and the
third write raising a broken pipe, the pump stops with the broken-pipe
reason recorded and nothing beyond the first two chunks written. -/
theorem pump_broken_pipe_stops_witness :
    pumpLoop [some 1, some 2, some 3, some 4, none] true (some 2) ⟨false, none⟩ =
      (([1, 2] : List Nat), ⟨true, some pipeClosedReason⟩, .pipeBroken)
    ∧ "closed unexpectedly".data <:+: pipeClosedReason.data :=
  pump_broken_pipe_stops [1, 2] 3 [some 4, none] ⟨false, none⟩ rfl

theorem countWarn_append (a b : List FwdLog) :
    countWarn (a ++ b) = countWarn a + countWarn b := by
  simp [countWarn, List.filter_append]

theorem countRecover_append (a b : List FwdLog) :
    countRecover (a ++ b) = countRecover a + countRecover b := by
  simp [countRecover, List.filter_append]

theorem runFwd_append (st : FwdState α) (ops1 ops2 : List (FwdOp α)) :
    runFwd st (ops1 ++ ops2) =
      ((runFwd (runFwd st ops1).1 ops2).1,
       (runFwd st ops1).2 ++ (runFwd (runFwd st ops1).1 ops2).2) := by
  induction ops1 generalizing st with
  | nil => simp [runFwd]
  | cons op ops1 ih =>
    cases op with
    | offer c => simp [runFwd, ih]
    | take => simp [runFwd, ih]

theorem takeFrame_shape (st : FwdState α) :
    (takeFrame st).queue.items = st.queue.items.drop 1
    ∧ (takeFrame st).queue.maxsize = st.queue.maxsize
    ∧ (takeFrame st).warned = st.warned := by
  unfold takeFrame AQueue.get_nowait
  match h : st.queue.items with
  | [] => simp [h]
  | x :: rest => simp [h]

theorem runFwd_takes (n : Nat) (st : FwdState α) :
    (runFwd st (List.replicate n FwdOp.take)).1.queue.items = st.queue.items.drop n
    ∧ (runFwd st (List.replicate n FwdOp.take)).1.queue.maxsize = st.queue.maxsize
    ∧ (runFwd st (List.replicate n FwdOp.take)).1.warned = st.warned
    ∧ (runFwd st (List.replicate n FwdOp.take)).2 = [] := by
  induction n generalizing st with
  | zero => simp [runFwd]
  | succ n ih =>
    rw [List.replicate_succ]
    have hstep : runFwd st (FwdOp.take :: List.replicate n FwdOp.take) =
        runFwd (takeFrame st) (List.replicate n FwdOp.take) := rfl
    rw [hstep]
    obtain ⟨h1, h2, h3⟩ := takeFrame_shape st
    obtain ⟨g1, g2, g3, g4⟩ := ih (takeFrame st)
    refine ⟨?_, ?_, ?_, g4⟩
    · rw [g1, h1, List.drop_drop, Nat.add_comm 1 n]
    · rw [g2, h2]
    · rw [g3, h3]

theorem offerFrame_queue (st : FwdState α) (c : α) :
    (offerFrame st c).1.queue =
      if st.queue.full then st.queue
      else ⟨st.queue.items ++ [some c], st.queue.maxsize⟩ := by
  cases hf : st.queue.full with
  | true =>
    have hput : st.queue.put_nowait (some c) = none := by
      simp [AQueue.put_nowait, hf]
    simp only [offerFrame, hput, if_true]
    split <;> rfl
  | false =>
    have hput : st.queue.put_nowait (some c) =
        some ⟨st.queue.items ++ [some c], st.queue.maxsize⟩ := by
      simp [AQueue.put_nowait, hf]
    simp only [offerFrame, hput, Bool.false_eq_true, if_false]
    split <;> rfl

theorem runFwd_offers_length (cs : List α) (st : FwdState α)
    (h0 : 0 < st.queue.maxsize) (hb : st.queue.items.length ≤ st.queue.maxsize) :
    (runFwd st (cs.map FwdOp.offer)).1.queue.items.length =
      min (st.queue.items.length + cs.length) st.queue.maxsize := by
  induction cs generalizing st with
  | nil => simp [runFwd]; omega
  | cons c cs ih =>
    have hq := offerFrame_queue st c
    have hstep : runFwd st ((c :: cs).map FwdOp.offer) =
        ((runFwd (offerFrame st c).1 (cs.map FwdOp.offer)).1,
         (offerFrame st c).2 ++ (runFwd (offerFrame st c).1 (cs.map FwdOp.offer)).2) := rfl
    rw [hstep]
    cases hf : st.queue.full with
    | false =>
      rw [hf] at hq
      simp only [Bool.false_eq_true, if_false] at hq
      have hlt : st.queue.items.length < st.queue.maxsize := by
        by_contra hcon
        have htrue := full_eq_true st.queue h0 (by omega)
        rw [htrue] at hf
        exact absurd hf (by simp)
      have hrec := ih (offerFrame st c).1 (by rw [hq]; exact h0)
        (by rw [hq]; simpa using hlt)
      rw [hrec, hq]
      simp
      omega
    | true =>
      rw [hf] at hq
      simp only [if_true] at hq
      have hge : st.queue.maxsize ≤ st.queue.items.length := by
        by_contra hcon
        have hfalse := full_eq_false st.queue (by omega)
        rw [hfalse] at hf
        exact absurd hf (by simp)
      have hrec := ih (offerFrame st c).1 (by rw [hq]; exact h0) (by rw [hq]; exact hb)
      rw [hrec, hq]
      simp
      omega

/-- C5 counterexample: fill the queue and overflow once (one warning,
`live_queue_warned` set), then let the pump drain 130 frames so that the
depth falls to 126, strictly below half capacity (128) — the claim says a
recovery notice is then logged, but the code logs recovery only inside a
successful offer, so the log holds no recovery notice at all (and a later
drop would still log no new warning). -/
theorem hysteresis_counterexample :
    countWarn (runFwd (initFwd (α := Nat)) hystRun1).2 = 1
    ∧ (runFwd (initFwd (α := Nat)) hystRun1).1.queue.items.length = 126
    ∧ 126 < 256 / 2
    ∧ countRecover (runFwd (initFwd (α := Nat)) hystRun1).2 = 0 := by
  have hsplit := runFwd_append (initFwd (α := Nat)) offerBurst
    (List.replicate 130 FwdOp.take)
  have htakes := runFwd_takes 130 (runFwd (initFwd (α := Nat)) offerBurst).1
  have hlen : (runFwd (initFwd (α := Nat)) offerBurst).1.queue.items.length = 256 := by
    have hgen := runFwd_offers_length (List.range 257) (initFwd (α := Nat))
      (by decide) (by decide)
    rw [show offerBurst = (List.range 257).map FwdOp.offer from rfl, hgen]
    rw [List.length_range]
    rfl
  have hwc : countWarn (runFwd (initFwd (α := Nat)) offerBurst).2 = 1 := by decide
  have hrc : countRecover (runFwd (initFwd (α := Nat)) offerBurst).2 = 0 := by decide
  refine ⟨?_, ?_, by omega, ?_⟩
  · show countWarn (runFwd (initFwd (α := Nat)) (offerBurst ++ List.replicate 130 FwdOp.take)).2 = 1
    rw [hsplit]
    simp only [countWarn_append, htakes.2.2.2, hwc]
    simp [countWarn]
  · show (runFwd (initFwd (α := Nat)) (offerBurst ++ List.replicate 130 FwdOp.take)).1.queue.items.length = 126
    rw [hsplit]
    simp only [htakes.1, List.length_drop, hlen]
  · show countRecover (runFwd (initFwd (α := Nat)) (offerBurst ++ List.replicate 130 FwdOp.take)).2 = 0
    rw [hsplit]
    simp only [countRecover_append, htakes.2.2.2, hrc]
    simp [countRecover]

theorem offerFrame_balance (st : FwdState α) (c : α) :
    countWarn (offerFrame st c).2 + (if st.warned then 1 else 0) =
    countRecover (offerFrame st c).2 +
      (if (offerFrame st c).1.warned then 1 else 0) := by
  unfold offerFrame
  match h : st.queue.put_nowait (some c) with
  | none =>
    by_cases hw : st.warned = true <;>
      simp [hw, countWarn, countRecover, FwdLog.isWarn, FwdLog.isRecover]
  | some q' =>
    by_cases hw : st.warned = true
    · by_cases hd : q'.items.length < q'.maxsize / 2 <;>
        simp [hw, hd, countWarn, countRecover, FwdLog.isWarn, FwdLog.isRecover]
    · simp [hw, countWarn, countRecover, FwdLog.isWarn, FwdLog.isRecover,
        Bool.eq_false_iff.mpr hw]

theorem warn_recover_balance (ops : List (FwdOp α)) (st : FwdState α) :
    countWarn (runFwd st ops).2 + (if st.warned then 1 else 0) =
    countRecover (runFwd st ops).2 +
      (if (runFwd st ops).1.warned then 1 else 0) := by
  induction ops generalizing st with
  | nil => simp [runFwd, countWarn, countRecover]
  | cons op ops ih =>
    cases op with
    | offer c =>
      have hstep : runFwd st (FwdOp.offer c :: ops) =
          ((runFwd (offerFrame st c).1 ops).1,
           (offerFrame st c).2 ++ (runFwd (offerFrame st c).1 ops).2) := rfl
      rw [hstep]
      rw [countWarn_append, countRecover_append]
      have hfst : ((runFwd (offerFrame st c).1 ops).1,
          (offerFrame st c).2 ++ (runFwd (offerFrame st c).1 ops).2).1 =
          (runFwd (offerFrame st c).1 ops).1 := rfl
      rw [hfst]
      have hbal := offerFrame_balance st c
      have hrest := ih (offerFrame st c).1
      omega
    | take =>
      have hstep : runFwd st (FwdOp.take :: ops) = runFwd (takeFrame st) ops := rfl
      rw [hstep]
      have hkeep := (takeFrame_shape st).2.2
      have hrest := ih (takeFrame st)
      rw [← hkeep]
      exact hrest

/-- C5 amended: the warning is edge-triggered by the `live_queue_warned`
flag, and the flag is cleared — together with the recovery notice — not
when the depth first falls below half capacity, but at the first
successful offer after a warning whose post-offer depth is strictly below
`maxsize // 2`; depth falling below half capacity through takes alone logs
nothing. Consequently in every run the warning count exceeds the recovery
count by exactly the final flag state (so at most one warning per
un-recovered overload episode, never one per dropped frame), a drop with
the flag clear logs exactly one warning, a qualifying offer with the flag
set logs exactly one recovery, and the concrete
fill/overflow/drain-well-below-half/refill/overflow sequence logs exactly
two warnings and one recovery. -/
theorem hysteresis_amended :
    (∀ (ops : List (FwdOp α)),
      countWarn (runFwd (initFwd (α := α)) ops).2 =
        countRecover (runFwd (initFwd (α := α)) ops).2 +
          (if (runFwd (initFwd (α := α)) ops).1.warned then 1 else 0))
    ∧ (∀ (st : FwdState α) (c : α), st.warned = false →
        st.queue.put_nowait (some c) = none →
        offerFrame st c = (⟨st.queue, true⟩, [FwdLog.dropWarning st.queue.maxsize]))
    ∧ (∀ (st : FwdState α) (c : α) (q' : AQueue (Option α)), st.warned = true →
        st.queue.put_nowait (some c) = some q' →
        q'.items.length < q'.maxsize / 2 →
        offerFrame st c = (⟨q', false⟩, [FwdLog.caughtUp q'.items.length]))
    ∧ countWarn (runFwd (initFwd (α := Nat)) hystRun2).2 = 2
    ∧ countRecover (runFwd (initFwd (α := Nat)) hystRun2).2 = 1 := by
  refine ⟨?_, ?_, ?_, by decide, by decide⟩
  · intro ops
    have h := warn_recover_balance ops (initFwd (α := α))
    simpa [initFwd] using h
  · intro st c hw hput
    unfold offerFrame
    rw [hput, hw]
    rfl
  · intro st c q' hw hput hdepth
    unfold offerFrame
    rw [hput]
    simp [hw, hdepth]

/-- Witness for C5 amended at concrete inputs: a drop on a full queue with
the flag clear logs one warning, and a successful offer at low depth with
the flag set logs one recovery. -/
theorem hysteresis_amended_witness :
    offerFrame (⟨fullQ, false⟩ : FwdState Nat) 9 =
      (⟨fullQ, true⟩, [FwdLog.dropWarning 256])
    ∧ offerFrame (⟨⟨[], 256⟩, true⟩ : FwdState Nat) 9 =
      (⟨⟨[some 9], 256⟩, false⟩, [FwdLog.caughtUp 1]) := by
  refine ⟨?_, ?_⟩
  · exact (hysteresis_amended (α := Nat)).2.1 ⟨fullQ, false⟩ 9 rfl (by decide)
  · exact (hysteresis_amended (α := Nat)).2.2.1 ⟨⟨[], 256⟩, true⟩ 9
      ⟨[some 9], 256⟩ rfl (by decide) (by decide)

theorem put_nowait_some (q : AQueue α) (x : α) (q' : AQueue α)
    (h : q.put_nowait x = some q') :
    q' = ⟨q.items ++ [x], q.maxsize⟩ := by
  unfold AQueue.put_nowait at h
  by_cases hf : q.full = true
  · rw [if_pos hf] at h; exact absurd h (by simp)
  · rw [if_neg hf] at h
    simpa using h.symm

theorem putAwait_some (q : AQueue α) (x : α) (q' : AQueue α)
    (h : q.putAwait x = some q') :
    q' = ⟨q.items ++ [x], q.maxsize⟩ := by
  unfold AQueue.putAwait at h
  by_cases hf : q.full = true
  · rw [if_pos hf] at h; exact absurd h (by simp)
  · rw [if_neg hf] at h
    simpa using h.symm

theorem chunksOf_append (a b : List (Option α)) :
    chunksOf (a ++ b) = chunksOf a ++ chunksOf b := by
  simp [chunksOf]

theorem chunksOf_cons_some (c : α) (rest : List (Option α)) :
    chunksOf (some c :: rest) = c :: chunksOf rest := by
  simp [chunksOf]

theorem chunksOf_cons_none (rest : List (Option α)) :
    chunksOf (none :: rest) = chunksOf rest := by
  simp [chunksOf]

theorem chunksOf_map_some (l : List α) : chunksOf (l.map some) = l := by
  induction l with
  | nil => rfl
  | cons x xs ih => rw [List.map_cons, chunksOf_cons_some, ih]

theorem stepLive_offer_none (st : LiveRun α) (c : α)
    (h : st.queue.put_nowait (some c) = none) :
    stepLive st (LiveOp.offer c) = st := by
  show (match st.queue.put_nowait (some c) with
        | none => st
        | some q' =>
          { st with queue := q', accepted := st.accepted ++ [c],
                    enqueued := st.enqueued ++ [some c] }) = st
  rw [h]

theorem stepLive_offer_some (st : LiveRun α) (c : α) (q' : AQueue (Option α))
    (h : st.queue.put_nowait (some c) = some q') :
    stepLive st (LiveOp.offer c) =
      { st with queue := q', accepted := st.accepted ++ [c],
                enqueued := st.enqueued ++ [some c] } := by
  show (match st.queue.put_nowait (some c) with
        | none => st
        | some q' =>
          { st with queue := q', accepted := st.accepted ++ [c],
                    enqueued := st.enqueued ++ [some c] }) = _
  rw [h]

theorem stepLive_end_none (st : LiveRun α)
    (h : st.queue.putAwait none = none) :
    stepLive st LiveOp.putEndMarker = st := by
  show (match st.queue.putAwait none with
        | none => st
        | some q' =>
          { st with queue := q', enqueued := st.enqueued ++ [none] }) = st
  rw [h]

theorem stepLive_end_some (st : LiveRun α) (q' : AQueue (Option α))
    (h : st.queue.putAwait none = some q') :
    stepLive st LiveOp.putEndMarker =
      { st with queue := q', enqueued := st.enqueued ++ [none] } := by
  show (match st.queue.putAwait none with
        | none => st
        | some q' =>
          { st with queue := q', enqueued := st.enqueued ++ [none] }) = _
  rw [h]

theorem stepLive_take_none (st : LiveRun α)
    (h : st.queue.get_nowait = none) :
    stepLive st LiveOp.take = st := by
  show (match st.queue.get_nowait with
        | none => st
        | some (x, q') =>
          { st with queue := q', taken := st.taken ++ [x] }) = st
  rw [h]

theorem stepLive_take_some (st : LiveRun α) (x : Option α)
    (q' : AQueue (Option α)) (h : st.queue.get_nowait = some (x, q')) :
    stepLive st LiveOp.take =
      { st with queue := q', taken := st.taken ++ [x] } := by
  show (match st.queue.get_nowait with
        | none => st
        | some (x, q') =>
          { st with queue := q', taken := st.taken ++ [x] }) = _
  rw [h]

theorem stepLive_inv (st : LiveRun α) (op : LiveOp α)
    (h1 : st.enqueued = st.taken ++ st.queue.items)
    (h2 : st.accepted = chunksOf st.enqueued) :
    (stepLive st op).enqueued = (stepLive st op).taken ++ (stepLive st op).queue.items
    ∧ (stepLive st op).accepted = chunksOf (stepLive st op).enqueued := by
  cases op with
  | offer c =>
    match hput : st.queue.put_nowait (some c) with
    | none => rw [stepLive_offer_none st c hput]; exact ⟨h1, h2⟩
    | some q' =>
      rw [stepLive_offer_some st c q' hput]
      have hq := put_nowait_some st.queue (some c) q' hput
      subst hq
      refine ⟨?_, ?_⟩
      · simp only [h1, List.append_assoc]
      · show st.accepted ++ [c] = chunksOf (st.enqueued ++ [some c])
        rw [chunksOf_append, ← h2, chunksOf_cons_some]
        rfl
  | putEndMarker =>
    match hput : st.queue.putAwait none with
    | none => rw [stepLive_end_none st hput]; exact ⟨h1, h2⟩
    | some q' =>
      rw [stepLive_end_some st q' hput]
      have hq := putAwait_some st.queue none q' hput
      subst hq
      refine ⟨?_, ?_⟩
      · simp only [h1, List.append_assoc]
      · show st.accepted = chunksOf (st.enqueued ++ [none])
        rw [chunksOf_append, ← h2, chunksOf_cons_none]
        simp [chunksOf]
  | take =>
    match hget : st.queue.get_nowait with
    | none => rw [stepLive_take_none st hget]; exact ⟨h1, h2⟩
    | some (x, q2) =>
      rw [stepLive_take_some st x q2 hget]
      obtain ⟨hitems, hmax⟩ := get_nowait_shape st.queue x q2 hget
      refine ⟨?_, h2⟩
      show st.enqueued = st.taken ++ [x] ++ q2.items
      rw [h1, hitems]
      simp

theorem runLive_inv (ops : List (LiveOp α)) (st : LiveRun α)
    (h1 : st.enqueued = st.taken ++ st.queue.items)
    (h2 : st.accepted = chunksOf st.enqueued) :
    (runLive st ops).enqueued =
      (runLive st ops).taken ++ (runLive st ops).queue.items
    ∧ (runLive st ops).accepted = chunksOf (runLive st ops).enqueued := by
  induction ops generalizing st with
  | nil => exact ⟨h1, h2⟩
  | cons op ops ih =>
    obtain ⟨g1, g2⟩ := stepLive_inv st op h1 h2
    exact ih (stepLive st op) g1 g2

theorem pumpLoop_writes_prefix (items : List (Option α)) (failAt : Option Nat)
    (s : Stop) :
    (pumpLoop items true failAt s).1 <+: chunksOf items := by
  induction items generalizing failAt with
  | nil => exact List.nil_prefix
  | cons it rest ih =>
    cases it with
    | none => exact List.nil_prefix
    | some c =>
      rw [chunksOf_cons_some]
      match failAt with
      | some 0 => exact List.nil_prefix
      | some (k + 1) =>
        exact List.cons_prefix_cons.mpr ⟨rfl, ih (some k)⟩
      | none =>
        exact List.cons_prefix_cons.mpr ⟨rfl, ih none⟩

theorem pumpLoop_healthy (items : List (Option α)) (s : Stop) :
    (pumpLoop items true none s).1 = chunksOf (items.takeWhile Option.isSome) := by
  induction items with
  | nil => rfl
  | cons it rest ih =>
    cases it with
    | none => rfl
    | some c =>
      show c :: (pumpLoop rest true none s).1 = _
      rw [ih]
      rfl

theorem takeWhile_map_some_append (l : List α) (rest : List (Option α)) :
    (l.map some ++ none :: rest).takeWhile Option.isSome = l.map some := by
  induction l with
  | nil => rfl
  | cons x xs ih =>
    simp only [List.map_cons, List.cons_append, List.takeWhile_cons]
    rw [ih]
    rfl

/-- C3: in every interleaved run of producer offers, end-marker pushes and
pump takes on the live queue, the chunks the pump writes to the consumer
are a prefix of the accepted chunks in acceptance order — dropped chunks
are absent (they never enter the queue) and no delivered chunk is
reordered or duplicated; with a healthy pipe the pump writes exactly the
chunks it takes up to the first end marker, and in a completed run (every
accepted chunk taken, followed by the end marker) it writes exactly the
accepted sequence. -/
theorem pump_delivers_in_acceptance_order (ops : List (LiveOp α))
    (failAt : Option Nat) (s : Stop) :
    (pumpLoop (runLive initLive ops).taken true failAt s).1 <+:
      (runLive initLive ops).accepted
    ∧ (pumpLoop (runLive initLive ops).taken true none s).1 =
        chunksOf ((runLive initLive ops).taken.takeWhile Option.isSome)
    ∧ ((runLive initLive ops).taken =
          (runLive initLive ops).accepted.map some ++ [none] →
        (pumpLoop (runLive initLive ops).taken true none s).1 =
          (runLive initLive ops).accepted) := by
  obtain ⟨h1, h2⟩ := runLive_inv ops (initLive (α := α)) rfl rfl
  refine ⟨?_, pumpLoop_healthy _ s, ?_⟩
  · have hp1 := pumpLoop_writes_prefix (runLive initLive ops).taken failAt s
    have hp2 : chunksOf (runLive initLive ops).taken <+:
        (runLive initLive ops).accepted := by
      rw [h2, h1, chunksOf_append]
      exact ⟨_, rfl⟩
    exact hp1.trans hp2
  · intro hdone
    rw [pumpLoop_healthy _ s, hdone, takeWhile_map_some_append, chunksOf_map_some]

/-- Witness for C3 at concrete inputs: interleaving three offers with
takes and the end-marker push, the pump writes exactly the accepted
chunks in order. -/
theorem pump_delivers_in_acceptance_order_witness :
    (runLive (initLive (α := Nat))
        [LiveOp.offer 1, LiveOp.offer 2, LiveOp.take, LiveOp.offer 3,
         LiveOp.take, LiveOp.putEndMarker, LiveOp.take, LiveOp.take]).taken =
      (runLive (initLive (α := Nat))
        [LiveOp.offer 1, LiveOp.offer 2, LiveOp.take, LiveOp.offer 3,
         LiveOp.take, LiveOp.putEndMarker, LiveOp.take, LiveOp.take]).accepted.map some
        ++ [none]
    ∧ (pumpLoop (runLive (initLive (α := Nat))
        [LiveOp.offer 1, LiveOp.offer 2, LiveOp.take, LiveOp.offer 3,
         LiveOp.take, LiveOp.putEndMarker, LiveOp.take, LiveOp.take]).taken
        true none ⟨false, none⟩).1 =
      (runLive (initLive (α := Nat))
        [LiveOp.offer 1, LiveOp.offer 2, LiveOp.take, LiveOp.offer 3,
         LiveOp.take, LiveOp.putEndMarker, LiveOp.take, LiveOp.take]).accepted := by
  refine ⟨by decide, ?_⟩
  exact (pump_delivers_in_acceptance_order
    [LiveOp.offer 1, LiveOp.offer 2, LiveOp.take, LiveOp.offer 3,
     LiveOp.take, LiveOp.putEndMarker, LiveOp.take, LiveOp.take]
    none ⟨false, none⟩).2.2 (by decide)

/-- C7 counterexample: with the stop latch already fired (a signal arrived
first) but the shutdown sequencer not yet having cleared `live_active`,
`monitor_live` correctly fires no second reason — but it still pushes an
end marker, mutating the queue: the push at source line 317 is guarded
only by `live_active`, not by the stop latch, so at the moment the session
is "already stopping" (latch fired) the monitor is not a no-op. -/
theorem monitor_counterexample :
    monitorLive
      (⟨true, ⟨true, some "Received SIGINT; stopping..."⟩, ⟨[], 256⟩⟩ :
        MonitorCtx Nat) 0 =
      some ⟨true, ⟨true, some "Received SIGINT; stopping..."⟩, ⟨[none], 256⟩⟩
    ∧ (⟨[none], 256⟩ : AQueue (Option Nat)) ≠ (⟨[], 256⟩ : AQueue (Option Nat)) := by
  exact ⟨rfl, by decide⟩

/-- C7 amended: when the consumer exits on its own with the latch unfired
and the session still marked active, the monitor fires the latch with a
reason containing the exit code and pushes an end marker; when the
shutdown sequencer has already marked the session inactive
(`live_active = False`), the monitor does nothing at all; in the
intermediate state — latch fired but session still marked active — it
fires no reason but still pushes an end marker. -/
theorem monitor_amended (ctx : MonitorCtx α) (rc : Int)
    (hroom : ctx.queue.items.length < ctx.queue.maxsize) :
    (ctx.liveActive = true → ctx.stop.fired = false →
       monitorLive ctx rc =
         some ⟨true, ⟨true, some (monitorReason rc)⟩,
               ⟨ctx.queue.items ++ [none], ctx.queue.maxsize⟩⟩
       ∧ (toString rc).data <:+: (monitorReason rc).data)
    ∧ (ctx.liveActive = false →
       monitorLive ctx rc = some ⟨false, ctx.stop, ctx.queue⟩)
    ∧ (ctx.liveActive = true → ctx.stop.fired = true →
       monitorLive ctx rc =
         some ⟨true, ctx.stop, ⟨ctx.queue.items ++ [none], ctx.queue.maxsize⟩⟩) := by
  have hput : ctx.queue.putAwait none =
      some ⟨ctx.queue.items ++ [none], ctx.queue.maxsize⟩ := by
    simp [AQueue.putAwait, full_eq_false ctx.queue hroom]
  refine ⟨?_, ?_, ?_⟩
  · intro ha hs
    constructor
    · simp [monitorLive, ha, hs, hput, requestStop]
    · exact ⟨("Live command exited with return code ").data,
        ("; stopping...").data, rfl⟩
  · intro ha
    simp [monitorLive, ha]
  · intro ha hs
    simp [monitorLive, ha, hs, hput]

/-- Witness for C7 at concrete inputs: with the latch unfired and an
active session, a consumer exit with code 2 records the interpolated
reason and enqueues the end marker; with the session marked inactive,
nothing changes. -/
theorem monitor_amended_witness :
    (monitorLive (⟨true, ⟨false, none⟩, ⟨[some 5], 256⟩⟩ : MonitorCtx Nat) 2 =
        some ⟨true, ⟨true, some (monitorReason 2)⟩, ⟨[some 5, none], 256⟩⟩
      ∧ (toString (2 : Int)).data <:+: (monitorReason 2).data)
    ∧ monitorLive (⟨false, ⟨true, some "x"⟩, ⟨[some 5], 256⟩⟩ : MonitorCtx Nat) 2 =
        some ⟨false, ⟨true, some "x"⟩, ⟨[some 5], 256⟩⟩ := by
  constructor
  · exact (monitor_amended
      (⟨true, ⟨false, none⟩, ⟨[some 5], 256⟩⟩ : MonitorCtx Nat) 2
      (by decide)).1 rfl rfl
  · exact (monitor_amended
      (⟨false, ⟨true, some "x"⟩, ⟨[some 5], 256⟩⟩ : MonitorCtx Nat) 2
      (by decide)).2.1 rfl

/-- C9: the termination sequence always returns the exit status of the
consumer process (it never hangs: the graceful wait is bounded by the
5-second timeout and the post-kill wait observes the exit after the small
bounded `killDelay`); the elapsed time is at most the grace period plus
that bounded overhead; the graceful request is always sent first; a
process that ignores the graceful request (or outlives the grace period)
is force-killed; and a process that exits within the grace period is
never killed and costs only its own exit time. -/
theorem terminate_always_returns (p : ProcBehaviour) :
    (terminateProc p 5).status = some p.exitCode
    ∧ (terminateProc p 5).elapsed ≤ 5 + p.killDelay
    ∧ TermEvent.termRequested ∈ (terminateProc p 5).events
    ∧ (p.gracefulExit = none →
        (terminateProc p 5).events =
          [TermEvent.termRequested, TermEvent.killRequested])
    ∧ (∀ t, p.gracefulExit = some t → t ≤ 5 →
        (terminateProc p 5).events = [TermEvent.termRequested]
        ∧ (terminateProc p 5).elapsed = t)
    ∧ (∀ t, p.gracefulExit = some t → 5 < t →
        (terminateProc p 5).events =
          [TermEvent.termRequested, TermEvent.killRequested]) := by
  cases hg : p.gracefulExit with
  | none =>
    refine ⟨?_, ?_, ?_, ?_, ?_, ?_⟩ <;>
      simp [terminateProc, hg]
  | some t =>
    by_cases ht : t ≤ 5
    · refine ⟨?_, ?_, ?_, ?_, ?_, ?_⟩ <;>
        simp [terminateProc, hg, ht] <;> omega
    · refine ⟨?_, ?_, ?_, ?_, ?_, ?_⟩ <;>
        simp [terminateProc, hg, ht] <;> omega

/-- Witness for C9 at concrete inputs: a process ignoring the graceful
request is force-killed and its status is still returned after the grace
period plus the kill overhead. -/
theorem terminate_always_returns_witness :
    (terminateProc ⟨none, 1, 9⟩ 5).status = some 9
    ∧ (terminateProc ⟨none, 1, 9⟩ 5).elapsed ≤ 5 + 1
    ∧ (terminateProc ⟨none, 1, 9⟩ 5).events =
        [TermEvent.termRequested, TermEvent.killRequested] := by
  have h := terminate_always_returns ⟨none, 1, 9⟩
  exact ⟨h.1, h.2.1, h.2.2.2.1 rfl⟩

theorem shutdownFlush_ok (env : ShutdownEnv) (steps : List SStep)
    (h9 : env.sleepExc = none) :
    shutdownFlush env steps = .completed (steps ++ [SStep.flushed]) := by
  simp [shutdownFlush, h9]

theorem shutdownWait2_ok (env : ShutdownEnv) (steps : List SStep)
    (h8 : env.finalWaitExc = none) (h9 : env.sleepExc = none) :
    shutdownWait2 env steps = .completed (steps ++ [SStep.flushed]) := by
  simp [shutdownWait2, h8, shutdownFlush_ok env steps h9]

theorem shutdownWait_ok (env : ShutdownEnv) (steps : List SStep)
    (h7 : ∀ e, env.killExc = some e → e.isException = true)
    (h8 : env.finalWaitExc = none) (h9 : env.sleepExc = none) :
    shutdownWait env steps = .completed
      (steps ++ (if env.gracefulTimesOut then [SStep.killed, SStep.flushed]
                 else [SStep.flushed])) := by
  cases hg : env.gracefulTimesOut with
  | false => simp [shutdownWait, hg, shutdownFlush_ok env steps h9]
  | true =>
    cases hk : env.killExc with
    | none =>
      simp [shutdownWait, hg, hk,
        shutdownWait2_ok env (steps ++ [SStep.killed]) h8 h9]
    | some e =>
      have he := h7 e hk
      simp [shutdownWait, hg, hk, he,
        shutdownWait2_ok env (steps ++ [SStep.killed]) h8 h9]

theorem shutdownProc2_ok (env : ShutdownEnv) (steps : List SStep)
    (h6 : ∀ e, env.termExc = some e → e.isException = true)
    (h7 : ∀ e, env.killExc = some e → e.isException = true)
    (h8 : env.finalWaitExc = none) (h9 : env.sleepExc = none) :
    shutdownProc2 env steps = .completed
      (steps ++ (if env.procRunning then
          SStep.terminated ::
            (if env.gracefulTimesOut then [SStep.killed, SStep.flushed]
             else [SStep.flushed])
        else [SStep.flushed])) := by
  cases hp : env.procRunning with
  | false => simp [shutdownProc2, hp, shutdownFlush_ok env steps h9]
  | true =>
    have hw := shutdownWait_ok env (steps ++ [SStep.terminated]) h7 h8 h9
    cases ht : env.termExc with
    | none => simp [shutdownProc2, hp, ht, hw]
    | some e =>
      have he := h6 e ht
      simp [shutdownProc2, hp, ht, he, hw]

theorem shutdownProc_ok (env : ShutdownEnv) (steps : List SStep)
    (h5 : ∀ e, env.closeExc = some e → e.isException = true)
    (h6 : ∀ e, env.termExc = some e → e.isException = true)
    (h7 : ∀ e, env.killExc = some e → e.isException = true)
    (h8 : env.finalWaitExc = none) (h9 : env.sleepExc = none) :
    shutdownProc env steps = .completed
      (steps ++ (if env.stdinOpen then [SStep.closedStdin] else []) ++
       (if env.procRunning then
          SStep.terminated ::
            (if env.gracefulTimesOut then [SStep.killed, SStep.flushed]
             else [SStep.flushed])
        else [SStep.flushed])) := by
  cases hs : env.stdinOpen with
  | false =>
    simp [shutdownProc, hs, shutdownProc2_ok env steps h6 h7 h8 h9]
  | true =>
    have hp2 := shutdownProc2_ok env (steps ++ [SStep.closedStdin]) h6 h7 h8 h9
    cases hc : env.closeExc with
    | none => simp [shutdownProc, hs, hc, hp2]
    | some e =>
      have he := h5 e hc
      simp [shutdownProc, hs, hc, he, hp2]

theorem shutdownMonitor_ok (env : ShutdownEnv) (steps : List SStep)
    (h4 : env.monitorExc = none ∨ env.monitorExc = some Exc.cancelled)
    (h5 : ∀ e, env.closeExc = some e → e.isException = true)
    (h6 : ∀ e, env.termExc = some e → e.isException = true)
    (h7 : ∀ e, env.killExc = some e → e.isException = true)
    (h8 : env.finalWaitExc = none) (h9 : env.sleepExc = none) :
    shutdownMonitor env steps = .completed
      (steps ++ [SStep.cancelledMonitor] ++
       (if env.stdinOpen then [SStep.closedStdin] else []) ++
       (if env.procRunning then
          SStep.terminated ::
            (if env.gracefulTimesOut then [SStep.killed, SStep.flushed]
             else [SStep.flushed])
        else [SStep.flushed])) := by
  have hp := shutdownProc_ok env (steps ++ [SStep.cancelledMonitor]) h5 h6 h7 h8 h9
  rcases h4 with hm | hm <;> simp [shutdownMonitor, hm, hp]

theorem shutdownPump_ok (env : ShutdownEnv) (steps : List SStep)
    (h3 : ∀ e, env.pumpExc = some e → e.isException = true)
    (h4 : env.monitorExc = none ∨ env.monitorExc = some Exc.cancelled)
    (h5 : ∀ e, env.closeExc = some e → e.isException = true)
    (h6 : ∀ e, env.termExc = some e → e.isException = true)
    (h7 : ∀ e, env.killExc = some e → e.isException = true)
    (h8 : env.finalWaitExc = none) (h9 : env.sleepExc = none) :
    shutdownPump env steps = .completed
      (steps ++ [SStep.awaitedPump] ++ [SStep.cancelledMonitor] ++
       (if env.stdinOpen then [SStep.closedStdin] else []) ++
       (if env.procRunning then
          SStep.terminated ::
            (if env.gracefulTimesOut then [SStep.killed, SStep.flushed]
             else [SStep.flushed])
        else [SStep.flushed])) := by
  have hm := shutdownMonitor_ok env (steps ++ [SStep.awaitedPump]) h4 h5 h6 h7 h8 h9
  cases hpe : env.pumpExc with
  | none => simp [shutdownPump, hpe, hm]
  | some e =>
    have he := h3 e hpe
    simp [shutdownPump, hpe, he, hm]

/-- C8 counterexample: `record_call` suppresses only `NotInCallError`
around `await call.leave_call(...)`; any other exception there (an RPC or
network error, say) propagates to the caller immediately — it is neither
caught nor logged, and the remaining teardown steps (end-marker push, pump
await, monitor cancel, stdin close, process terminate, flush) never run,
leaving the still-running consumer process unreleased. -/
theorem shutdown_counterexample :
    shutdownRun shutdownEnvCex =
      SOutcome.raised (Exc.other 0) [SStep.markedInactive]
    ∧ shutdownEnvCex.procRunning = true
    ∧ SStep.terminated ∉ [SStep.markedInactive] := by
  exact ⟨rfl, rfl, by decide⟩

/-- C8 amended: the teardown runs to completion — releasing the process —
only for the specific exceptions each step anticipates, and those are
suppressed silently, not logged: `NotInCallError` at the leave-call, any
`Exception` while awaiting the pump, closing stdin, requesting
termination or killing, `CancelledError` while awaiting the cancelled
monitor, and `TimeoutError` on the graceful wait (escalating to the
forced kill). Under those conditions — and provided the queue is not full
at the end-marker push and the unsuppressed final wait and flush sleep do
not raise — every step executes in order, terminating and if necessary
killing a still-running process. Any other exception propagates to the
caller and aborts the remaining steps. -/
theorem shutdown_amended (env : ShutdownEnv)
    (h1 : env.leaveExc = none ∨ env.leaveExc = some Exc.notInCall)
    (h2 : env.queueFull = false)
    (h3 : ∀ e, env.pumpExc = some e → e.isException = true)
    (h4 : env.monitorExc = none ∨ env.monitorExc = some Exc.cancelled)
    (h5 : ∀ e, env.closeExc = some e → e.isException = true)
    (h6 : ∀ e, env.termExc = some e → e.isException = true)
    (h7 : ∀ e, env.killExc = some e → e.isException = true)
    (h8 : env.finalWaitExc = none) (h9 : env.sleepExc = none) :
    shutdownRun env = .completed
      ([SStep.markedInactive, SStep.leftCall, SStep.pushedEnd,
        SStep.awaitedPump, SStep.cancelledMonitor] ++
       (if env.stdinOpen then [SStep.closedStdin] else []) ++
       (if env.procRunning then
          SStep.terminated ::
            (if env.gracefulTimesOut then [SStep.killed, SStep.flushed]
             else [SStep.flushed])
        else [SStep.flushed])) := by
  have hq : shutdownQueue env [SStep.markedInactive, SStep.leftCall] =
      shutdownPump env [SStep.markedInactive, SStep.leftCall, SStep.pushedEnd] := by
    simp [shutdownQueue, h2]
  have hp := shutdownPump_ok env
    [SStep.markedInactive, SStep.leftCall, SStep.pushedEnd] h3 h4 h5 h6 h7 h8 h9
  rcases h1 with hl | hl <;>
    simp [shutdownRun, hl, hq, hp]

/-- Witness for C8 at concrete inputs: with `NotInCallError` at leave, an
ordinary pump exception, a cancelled monitor and a process ignoring the
graceful wait, the teardown completes with every step executed, through
the forced kill and the flush sleep. -/
theorem shutdown_amended_witness :
    shutdownRun shutdownEnvOk = SOutcome.completed
      [SStep.markedInactive, SStep.leftCall, SStep.pushedEnd,
       SStep.awaitedPump, SStep.cancelledMonitor, SStep.closedStdin,
       SStep.terminated, SStep.killed, SStep.flushed] := by
  have h := shutdown_amended shutdownEnvOk (Or.inr rfl) rfl
    (by intro e he; injection he with h2; subst h2; rfl) (Or.inr rfl)
    (by intro e he; exact Option.noConfusion he)
    (by intro e he; exact Option.noConfusion he)
    (by intro e he; exact Option.noConfusion he) rfl rfl
  simpa using h

end TelegramVoiceRelay
